import Mathlib

/-!
Shallow embedding of the sonar editor core (src/buffer.rs, src/modal.rs and the
input-handling layer of src/main.rs), together with proofs about it.

Rust strings are modelled as `List Char` (the code only ever indexes by a
cursor column that the buffer invariant keeps at a character boundary), the
line vector as `List (List Char)`, and the undo/redo `Vec` stacks as lists
whose head is the top of the stack.  Indexing `self.lines[i]` is modelled by
`List.getD _ i []`; out-of-bounds access never happens in the well-formed
states the theorems quantify over.  Rust functions that can panic are
modelled with `Option`, `none` standing for the panic.
-/

namespace Sonar

/-- Cursor from buffer.rs: a line/column position. -/
structure Cursor where
  line : Nat
  col : Nat
deriving DecidableEq, Repr

/-- LineCombination from buffer.rs. -/
inductive LineCombination
  | FromStart
  | FromEnd
deriving DecidableEq, Repr

/-- BufferOp from buffer.rs: the unit of undo history. -/
inductive BufferOp
  | InsertChar (cur : Cursor) (ch : Char)
  | RemoveChar (cur : Cursor) (ch : Char) (at_ : Bool)
  | SplitLine (cur : Cursor)
  | CombineLine (cur : Cursor) (from_ : LineCombination)
  | NoOp
deriving DecidableEq, Repr

/-- Buffer from buffer.rs. -/
structure Buffer where
  name : String
  lines : List (List Char)
  cursor : Cursor
  undos : List BufferOp
  redos : List BufferOp
deriving DecidableEq, Repr

namespace Buffer

/-- Buffer::empty. -/
def empty : Buffer :=
  { name := "[draft]"
    lines := [[]]
    cursor := ⟨0, 0⟩
    undos := []
    redos := [] }

/-- Buffer::new, after the I/O step: the reader has already been split into
its list of lines (an unreadable source aborts before this point). -/
def new (name : String) (lines : List (List Char)) : Buffer :=
  { name := name
    lines := lines
    cursor := ⟨0, 0⟩
    undos := []
    redos := [] }

/-- The string self.lines[self.cursor.line]. -/
def getLine (b : Buffer) : List Char :=
  b.lines.getD b.cursor.line []

/-- Buffer::record_op. -/
def record_op (b : Buffer) (op : BufferOp) : Buffer :=
  if op ≠ BufferOp.NoOp then
    { b with undos := op :: b.undos, redos := [] }
  else b

/-- Buffer::op_insert_char: returns the mutated buffer and the op. -/
def op_insert_char (b : Buffer) (ch : Char) : Buffer × BufferOp :=
  let cur := b.cursor
  ({ b with
      lines := b.lines.set cur.line ((b.lines.getD cur.line []).insertIdx cur.col ch)
      cursor := { cur with col := cur.col + 1 } },
   BufferOp.InsertChar cur ch)

/-- Buffer::op_newline: split the current line at the cursor column. -/
def op_newline (b : Buffer) : Buffer × BufferOp :=
  let cur := b.cursor
  let cl := b.lines.getD cur.line []
  let new_line := cl.drop cur.col
  let lines1 := b.lines.set cur.line (cl.take cur.col)
  let cursor1 : Cursor := ⟨cur.line + 1, 0⟩
  ({ b with lines := lines1.insertIdx cursor1.line new_line, cursor := cursor1 },
   BufferOp.SplitLine cur)

/-- Buffer::op_remove_at: forward delete, merging with the next line at
end of line, a NoOp at the end of the document. -/
def op_remove_at (b : Buffer) : Buffer × BufferOp :=
  let cl := b.lines.getD b.cursor.line []
  if b.cursor.col < cl.length then
    let ch := cl.getD b.cursor.col ' '
    ({ b with lines := b.lines.set b.cursor.line (cl.eraseIdx b.cursor.col) },
     BufferOp.RemoveChar b.cursor ch true)
  else if b.cursor.line < b.lines.length - 1 then
    let next_line := b.lines.getD (b.cursor.line + 1) []
    let lines1 := b.lines.eraseIdx (b.cursor.line + 1)
    ({ b with lines := lines1.set b.cursor.line (cl ++ next_line) },
     BufferOp.CombineLine b.cursor LineCombination.FromEnd)
  else
    (b, BufferOp.NoOp)

/-- Buffer::op_remove_before: backspace, merging into the previous line at
column 0, a NoOp at the very start of the document. -/
def op_remove_before (b : Buffer) : Buffer × BufferOp :=
  if 0 < b.cursor.col then
    let cur1 : Cursor := { b.cursor with col := b.cursor.col - 1 }
    let cl := b.lines.getD cur1.line []
    let ch := cl.getD cur1.col ' '
    ({ b with cursor := cur1, lines := b.lines.set cur1.line (cl.eraseIdx cur1.col) },
     BufferOp.RemoveChar cur1 ch false)
  else if 0 < b.cursor.line then
    let line := b.lines.getD b.cursor.line []
    let lines1 := b.lines.eraseIdx b.cursor.line
    let prev := lines1.getD (b.cursor.line - 1) []
    let cur1 : Cursor := ⟨b.cursor.line - 1, prev.length⟩
    ({ b with cursor := cur1, lines := lines1.set cur1.line (prev ++ line) },
     BufferOp.CombineLine cur1 LineCombination.FromStart)
  else
    (b, BufferOp.NoOp)

/-- Buffer::undo: pop the undo stack, apply the inverse, push the popped
op onto the redo stack.  The ops returned by the inverse applications
are discarded, never recorded. -/
def undo (b : Buffer) : Buffer :=
  match b.undos with
  | [] => b
  | op :: rest =>
    let b0 := { b with undos := rest }
    let b1 :=
      match op with
      | BufferOp.InsertChar cur _ =>
          (op_remove_at { b0 with cursor := cur }).1
      | BufferOp.RemoveChar cur ch at_ =>
          let b2 := (op_insert_char { b0 with cursor := cur } ch).1
          if at_ then { b2 with cursor := cur } else b2
      | BufferOp.SplitLine cur =>
          (op_remove_at { b0 with cursor := cur }).1
      | BufferOp.CombineLine cur from_ =>
          let b2 := (op_newline { b0 with cursor := cur }).1
          if from_ = LineCombination.FromEnd then { b2 with cursor := cur } else b2
      | BufferOp.NoOp => b0
    { b1 with redos := op :: b1.redos }

/-- Buffer::redo: pop the redo stack, re-apply the effect, push the popped
op back onto the undo stack. -/
def redo (b : Buffer) : Buffer :=
  match b.redos with
  | [] => b
  | op :: rest =>
    let b0 := { b with redos := rest }
    let b1 :=
      match op with
      | BufferOp.InsertChar cur ch =>
          (op_insert_char { b0 with cursor := cur } ch).1
      | BufferOp.RemoveChar cur _ at_ =>
          if at_ then (op_remove_at { b0 with cursor := cur }).1
          else (op_remove_before { b0 with cursor := cur }).1
      | BufferOp.SplitLine cur =>
          (op_newline { b0 with cursor := cur }).1
      | BufferOp.CombineLine cur from_ =>
          match from_ with
          | LineCombination.FromStart => (op_remove_before { b0 with cursor := cur }).1
          | LineCombination.FromEnd => (op_remove_at { b0 with cursor := cur }).1
      | BufferOp.NoOp => b0
    { b1 with undos := op :: b1.undos }

/-- Buffer::move_cursor_up. -/
def move_cursor_up (b : Buffer) (delta : Nat) : Buffer :=
  if delta ≤ b.cursor.line then
    let line1 := b.cursor.line - delta
    { b with cursor := ⟨line1, min b.cursor.col (b.lines.getD line1 []).length⟩ }
  else b

/-- Buffer::move_cursor_down. -/
def move_cursor_down (b : Buffer) (delta : Nat) : Buffer :=
  let line1 := min (b.cursor.line + delta) (b.lines.length - 1)
  { b with cursor := ⟨line1, min b.cursor.col (b.lines.getD line1 []).length⟩ }

/-- Buffer::move_cursor_left. -/
def move_cursor_left (b : Buffer) (delta : Nat) : Buffer :=
  if delta ≤ b.cursor.col then
    { b with cursor := { b.cursor with col := b.cursor.col - delta } }
  else b

/-- Buffer::move_end_of_line. -/
def move_end_of_line (b : Buffer) : Buffer :=
  { b with cursor := { b.cursor with col := b.getLine.length } }

/-- Buffer::move_start_of_line. -/
def move_start_of_line (b : Buffer) : Buffer :=
  { b with cursor := { b.cursor with col := 0 } }

/-- Buffer::move_cursor_right. -/
def move_cursor_right (b : Buffer) (delta : Nat) : Buffer :=
  { b with cursor := { b.cursor with col := min (b.cursor.col + delta) b.getLine.length } }

/-- Buffer::go_to_line: returns the post-state and the error message when
the Result is Err (none meaning Ok). -/
def go_to_line (b : Buffer) (line : Nat) : Buffer × Option String :=
  if line < b.lines.length ∧ 0 < line then
    ({ b with cursor := { b.cursor with line := line - 1 } }, none)
  else
    (b, some ("Error: Line " ++ toString line ++ " is out of bound"))

/-- Buffer::newline. -/
def newline (b : Buffer) : Buffer :=
  let p := b.op_newline
  p.1.record_op p.2

/-- Buffer::insert_char. -/
def insert_char (b : Buffer) (ch : Char) : Buffer :=
  let p := b.op_insert_char ch
  p.1.record_op p.2

/-- Buffer::remove_at. -/
def remove_at (b : Buffer) : Buffer :=
  let p := b.op_remove_at
  p.1.record_op p.2

/-- Buffer::remove_before. -/
def remove_before (b : Buffer) : Buffer :=
  let p := b.op_remove_before
  p.1.record_op p.2

end Buffer

/-- Modal from modal.rs: the single-line editor. -/
structure Modal where
  name : String
  line : List Char
  col : Nat
deriving DecidableEq, Repr

namespace Modal

/-- Modal::new. -/
def new (name : String) : Modal :=
  { name := name, line := [], col := 0 }

/-- Modal::move_cursor_left. -/
def move_cursor_left (m : Modal) (delta : Nat) : Modal :=
  if delta ≤ m.col then { m with col := m.col - delta } else m

/-- Modal::move_end_of_line. -/
def move_end_of_line (m : Modal) : Modal :=
  { m with col := m.line.length }

/-- Modal::move_start_of_line. -/
def move_start_of_line (m : Modal) : Modal :=
  { m with col := 0 }

/-- Modal::move_cursor_right. -/
def move_cursor_right (m : Modal) (delta : Nat) : Modal :=
  { m with col := min (m.col + delta) m.line.length }

/-- Modal::insert_char. -/
def insert_char (m : Modal) (ch : Char) : Modal :=
  { m with line := m.line.insertIdx m.col ch, col := m.col + 1 }

/-- Modal::remove_at: the code runs self.line.remove(self.col)
unconditionally; String::remove panics when the index is not below the
length, modelled by none. -/
def remove_at (m : Modal) : Option Modal :=
  if m.col < m.line.length then
    some { m with line := m.line.eraseIdx m.col }
  else none

/-- Modal::remove_before. -/
def remove_before (m : Modal) : Modal :=
  if 0 < m.col then
    { m with line := m.line.eraseIdx (m.col - 1), col := m.col - 1 }
  else m

end Modal

/-- The integer parse done by str::parse::<usize> on the modal content:
an optional leading plus sign followed by at least one ASCII digit.
(Machine-width overflow is not modelled; no claim depends on it.) -/
def parse_usize (s : List Char) : Option Nat :=
  let digits := if s.head? = some '+' then s.tail else s
  if digits ≠ [] ∧ digits.all (fun c => c.isDigit) then
    some (digits.foldl (fun acc c => acc * 10 + (c.toNat - '0'.toNat)) 0)
  else none

/-- The Enter arm of App of GoToLineModal handle_input in main.rs:
parse the modal line with .unwrap(), call go_to_line with .unwrap(), and
return to the editor with the buffer.  Either unwrap panicking is
modelled by none; some buf means the process survived and the mode is
Editing over buf. -/
def confirm_go_to_line (buf : Buffer) (content : List Char) : Option Buffer :=
  match parse_usize content with
  | none => none
  | some n =>
    let r := buf.go_to_line n
    match r.2 with
    | some _ => none
    | none => some r.1

/-- The four editing operations of the buffer (the ones that record
undo history). -/
inductive Edit
  | insertChar (ch : Char)
  | newline
  | removeAt
  | removeBefore
deriving DecidableEq, Repr

/-- The operation an edit would record, i.e. the BufferOp computed by the
corresponding op_ method. -/
def editOp (e : Edit) (b : Buffer) : BufferOp :=
  match e with
  | Edit.insertChar ch => (b.op_insert_char ch).2
  | Edit.newline => b.op_newline.2
  | Edit.removeAt => b.op_remove_at.2
  | Edit.removeBefore => b.op_remove_before.2

/-- Apply one editing operation through its public method. -/
def applyEdit (e : Edit) (b : Buffer) : Buffer :=
  match e with
  | Edit.insertChar ch => b.insert_char ch
  | Edit.newline => b.newline
  | Edit.removeAt => b.remove_at
  | Edit.removeBefore => b.remove_before

/-- Apply a sequence of editing operations, left to right. -/
def applyEdits : List Edit → Buffer → Buffer
  | [], b => b
  | e :: es, b => applyEdits es (applyEdit e b)

/-- Call undo n times. -/
def undoN : Nat → Buffer → Buffer
  | 0, b => b
  | n + 1, b => (undoN n b).undo

/-- Well-formed buffer states: the cursor line indexes an existing line and
the cursor column is at most that line's length.  Every state the program
can reach from a non-degenerate construction satisfies this. -/
def WF (b : Buffer) : Prop :=
  b.cursor.line < b.lines.length ∧ b.cursor.col ≤ b.getLine.length

instance (b : Buffer) : Decidable (WF b) := by
  unfold WF; infer_instance

/-- Every edit in the sequence, applied at its place in the sequence, is
effective: the op it records is not NoOp. -/
def allEff : List Edit → Buffer → Bool
  | [], _ => true
  | e :: es, b => (editOp e b ≠ BufferOp.NoOp : Bool) && allEff es (applyEdit e b)

/-- All the input commands main.rs routes to the buffer while editing. -/
inductive Action
  | insertChar (ch : Char)
  | newline
  | removeAt
  | removeBefore
  | undo
  | redo
  | moveUp (d : Nat)
  | moveDown (d : Nat)
  | moveLeft (d : Nat)
  | moveRight (d : Nat)
  | home
  | endOfLine
  | goToLine (n : Nat)
deriving DecidableEq, Repr

/-- One step of the editing loop. -/
def step (a : Action) (b : Buffer) : Buffer :=
  match a with
  | Action.insertChar ch => b.insert_char ch
  | Action.newline => b.newline
  | Action.removeAt => b.remove_at
  | Action.removeBefore => b.remove_before
  | Action.undo => b.undo
  | Action.redo => b.redo
  | Action.moveUp d => b.move_cursor_up d
  | Action.moveDown d => b.move_cursor_down d
  | Action.moveLeft d => b.move_cursor_left d
  | Action.moveRight d => b.move_cursor_right d
  | Action.home => b.move_start_of_line
  | Action.endOfLine => b.move_end_of_line
  | Action.goToLine n => (b.go_to_line n).1

/-- Run a list of input commands. -/
def steps : List Action → Buffer → Buffer
  | [], b => b
  | a :: as_, b => steps as_ (step a b)

/-- Neither history stack contains NoOp. -/
def NoNoOp (b : Buffer) : Prop :=
  BufferOp.NoOp ∉ b.undos ∧ BufferOp.NoOp ∉ b.redos

instance (b : Buffer) : Decidable (NoNoOp b) := by
  unfold NoNoOp; infer_instance

/-- A two character buffer reached by typing a then b: lines ab, cursor (0,2). -/
def demo_ab : Buffer :=
  (Buffer.empty.insert_char 'a').insert_char 'b'

/-- The scenario buffer of the spec: type ab, newline, cd. -/
def demo_abcd : Buffer :=
  ((demo_ab.newline).insert_char 'c').insert_char 'd'

section ListLemmas

variable {α : Type}

lemma getD_set_self : ∀ (l : List α) (i : Nat) (a d : α), i < l.length →
    (l.set i a).getD i d = a
  | _ :: _, 0, _, _, _ => rfl
  | _ :: xs, i + 1, a, d, h => getD_set_self xs i a d (Nat.lt_of_succ_lt_succ h)

lemma getD_set_ne : ∀ (l : List α) (i j : Nat) (a d : α), i ≠ j →
    (l.set i a).getD j d = l.getD j d
  | [], _, _, _, _, _ => rfl
  | _ :: _, 0, 0, _, _, h => absurd rfl h
  | _ :: _, 0, _ + 1, _, _, _ => rfl
  | _ :: _, _ + 1, 0, _, _, _ => rfl
  | _ :: xs, i + 1, j + 1, a, d, h =>
    getD_set_ne xs i j a d (fun hij => h (by omega))

lemma set_getD_self : ∀ (l : List α) (i : Nat) (d : α), i < l.length →
    l.set i (l.getD i d) = l
  | _ :: _, 0, _, _ => rfl
  | x :: xs, i + 1, d, h => by
    have := set_getD_self xs i d (Nat.lt_of_succ_lt_succ h)
    simpa [List.set, List.getD] using this

lemma insertIdx_eraseIdx_getD : ∀ (l : List α) (i : Nat) (d : α), i < l.length →
    (l.eraseIdx i).insertIdx i (l.getD i d) = l
  | _ :: _, 0, _, _ => rfl
  | x :: xs, i + 1, d, h => by
    have := insertIdx_eraseIdx_getD xs i d (Nat.lt_of_succ_lt_succ h)
    simpa [List.eraseIdx, List.getD, List.insertIdx_succ_cons] using this

lemma getD_insertIdx_of_lt : ∀ (l : List α) (i j : Nat) (a d : α), j < i →
    (l.insertIdx i a).getD j d = l.getD j d
  | [], _ + 1, 0, _, _, _ => rfl
  | [], _ + 1, _ + 1, _, _, _ => by simp [List.insertIdx_succ_nil]
  | _ :: _, i + 1, 0, _, _, _ => rfl
  | x :: xs, i + 1, j + 1, a, d, h => by
    have := getD_insertIdx_of_lt xs i j a d (Nat.lt_of_succ_lt_succ h)
    simpa [List.insertIdx_succ_cons, List.getD] using this

lemma getD_insertIdx_self : ∀ (l : List α) (i : Nat) (a d : α), i ≤ l.length →
    (l.insertIdx i a).getD i d = a
  | _, 0, _, _, _ => rfl
  | x :: xs, i + 1, a, d, h => by
    have := getD_insertIdx_self xs i a d (Nat.le_of_succ_le_succ h)
    simpa [List.insertIdx_succ_cons, List.getD] using this

lemma getD_eraseIdx_of_lt : ∀ (l : List α) (i j : Nat) (d : α), j < i →
    (l.eraseIdx i).getD j d = l.getD j d
  | [], _, _, _, _ => rfl
  | _ :: _, i + 1, 0, _, _ => rfl
  | x :: xs, i + 1, j + 1, d, h => by
    have := getD_eraseIdx_of_lt xs i j d (Nat.lt_of_succ_lt_succ h)
    simpa [List.eraseIdx, List.getD] using this

end ListLemmas

/-! Undoing a single recorded edit restores the lines, the cursor and the
undo stack, and pushes exactly the recorded op onto the redo stack.  The
redo stack of the post-edit state is generalised to an arbitrary R so the
lemmas compose along a sequence of undos. -/

lemma undo_insert_char (b : Buffer) (ch : Char) (h : WF b) (R : List BufferOp) :
    Buffer.undo { b.insert_char ch with redos := R } =
      { b with redos := BufferOp.InsertChar b.cursor ch :: R } := by
  obtain ⟨hl, hc⟩ := h
  unfold Buffer.getLine at hc
  unfold Buffer.insert_char Buffer.op_insert_char Buffer.record_op Buffer.undo Buffer.op_remove_at
  simp only [ne_eq, reduceCtorEq, not_false_eq_true, if_true, if_pos]
  have e1 : (b.lines.set b.cursor.line
        (List.insertIdx b.cursor.col ch (b.lines.getD b.cursor.line []))).getD b.cursor.line []
      = List.insertIdx b.cursor.col ch (b.lines.getD b.cursor.line []) :=
    getD_set_self _ _ _ _ (by simpa using hl)
  rw [e1]
  have e2 : b.cursor.col < (List.insertIdx b.cursor.col ch (b.lines.getD b.cursor.line [])).length := by
    rw [List.length_insertIdx _ _ hc]; omega
  rw [if_pos e2]
  rw [List.eraseIdx_insertIdx, List.set_set, set_getD_self _ _ _ hl]

lemma undo_newline (b : Buffer) (h : WF b) (R : List BufferOp) :
    Buffer.undo { b.newline with redos := R } =
      { b with redos := BufferOp.SplitLine b.cursor :: R } := by
  obtain ⟨hl, hc⟩ := h
  unfold Buffer.getLine at hc
  unfold Buffer.newline Buffer.op_newline Buffer.record_op Buffer.undo Buffer.op_remove_at
  simp only [ne_eq, reduceCtorEq, not_false_eq_true, if_true, if_pos]
  have e0 : b.cursor.line + 1 ≤
      (b.lines.set b.cursor.line ((b.lines.getD b.cursor.line []).take b.cursor.col)).length := by
    simpa using hl
  have e1 : ((b.lines.set b.cursor.line ((b.lines.getD b.cursor.line []).take b.cursor.col)).insertIdx
        (b.cursor.line + 1) ((b.lines.getD b.cursor.line []).drop b.cursor.col)).getD b.cursor.line []
      = (b.lines.getD b.cursor.line []).take b.cursor.col := by
    rw [getD_insertIdx_of_lt _ _ _ _ _ (Nat.lt_succ_self _),
      getD_set_self _ _ _ _ (by simpa using hl)]
  rw [e1]
  have e2 : ¬ (b.cursor.col < ((b.lines.getD b.cursor.line []).take b.cursor.col).length) := by
    rw [List.length_take]; omega
  rw [if_neg e2]
  have e3 : ((b.lines.set b.cursor.line ((b.lines.getD b.cursor.line []).take b.cursor.col)).insertIdx
        (b.cursor.line + 1) ((b.lines.getD b.cursor.line []).drop b.cursor.col)).length
      = b.lines.length + 1 := by
    rw [List.length_insertIdx _ _ e0]; simp
  have e4 : b.cursor.line <
      ((b.lines.set b.cursor.line ((b.lines.getD b.cursor.line []).take b.cursor.col)).insertIdx
        (b.cursor.line + 1) ((b.lines.getD b.cursor.line []).drop b.cursor.col)).length - 1 := by
    omega
  rw [if_pos e4]
  rw [getD_insertIdx_self _ _ _ _ e0]
  rw [List.eraseIdx_insertIdx, List.set_set, List.take_append_drop, set_getD_self _ _ _ hl]

lemma undo_remove_at_char (b : Buffer) (h : WF b) (hcc : b.cursor.col < b.getLine.length)
    (R : List BufferOp) :
    Buffer.undo { b.remove_at with redos := R } =
      { b with redos :=
          (BufferOp.RemoveChar b.cursor (b.getLine.getD b.cursor.col ' ') true) :: R } := by
  obtain ⟨hl, hc⟩ := h
  unfold Buffer.getLine at hcc hc ⊢
  unfold Buffer.remove_at Buffer.op_remove_at Buffer.record_op Buffer.undo Buffer.op_insert_char
  rw [if_pos hcc]
  simp only [ne_eq, reduceCtorEq, not_false_eq_true, if_true, if_pos]
  have e1 : (b.lines.set b.cursor.line ((b.lines.getD b.cursor.line []).eraseIdx b.cursor.col)).getD
        b.cursor.line []
      = (b.lines.getD b.cursor.line []).eraseIdx b.cursor.col :=
    getD_set_self _ _ _ _ (by simpa using hl)
  rw [e1]
  rw [List.set_set, insertIdx_eraseIdx_getD _ _ _ hcc, set_getD_self _ _ _ hl]

lemma undo_remove_at_combine (b : Buffer) (h : WF b)
    (hcc : ¬ b.cursor.col < b.getLine.length) (hline : b.cursor.line < b.lines.length - 1)
    (R : List BufferOp) :
    Buffer.undo { b.remove_at with redos := R } =
      { b with redos := (BufferOp.CombineLine b.cursor LineCombination.FromEnd) :: R } := by
  obtain ⟨hl, hc⟩ := h
  unfold Buffer.getLine at hcc hc
  unfold Buffer.remove_at Buffer.op_remove_at Buffer.record_op Buffer.undo Buffer.op_newline
  rw [if_neg hcc, if_pos hline]
  simp only [ne_eq, reduceCtorEq, not_false_eq_true, if_true, if_pos]
  have elen : b.cursor.line < (b.lines.eraseIdx (b.cursor.line + 1)).length := by
    rw [List.length_eraseIdx]
    simp only [if_pos (by omega : b.cursor.line + 1 < b.lines.length)]
    omega
  have e1 : ((b.lines.eraseIdx (b.cursor.line + 1)).set b.cursor.line
        (b.lines.getD b.cursor.line [] ++ b.lines.getD (b.cursor.line + 1) [])).getD b.cursor.line []
      = b.lines.getD b.cursor.line [] ++ b.lines.getD (b.cursor.line + 1) [] :=
    getD_set_self _ _ _ _ (by simpa using elen)
  rw [e1]
  have hceq : b.cursor.col = (b.lines.getD b.cursor.line []).length := by omega
  rw [hceq, List.take_left, List.drop_left]
  rw [List.set_set]
  have e6 : ((b.lines.eraseIdx (b.cursor.line + 1)).set b.cursor.line (b.lines.getD b.cursor.line []))
      = b.lines.eraseIdx (b.cursor.line + 1) := by
    conv_lhs =>
      rw [← getD_eraseIdx_of_lt b.lines (b.cursor.line + 1) b.cursor.line [] (Nat.lt_succ_self _)]
    exact set_getD_self _ _ _ elen
  rw [e6]
  rw [insertIdx_eraseIdx_getD _ _ _ (by omega : b.cursor.line + 1 < b.lines.length)]

lemma undo_remove_before_char (b : Buffer) (h : WF b) (hcc : 0 < b.cursor.col)
    (R : List BufferOp) :
    Buffer.undo { b.remove_before with redos := R } =
      { b with redos :=
          (BufferOp.RemoveChar { b.cursor with col := b.cursor.col - 1 }
            (b.getLine.getD (b.cursor.col - 1) ' ') false) :: R } := by
  obtain ⟨hl, hc⟩ := h
  unfold Buffer.getLine at hc ⊢
  unfold Buffer.remove_before Buffer.op_remove_before Buffer.record_op Buffer.undo
    Buffer.op_insert_char
  rw [if_pos hcc]
  simp only [ne_eq, reduceCtorEq, not_false_eq_true, if_true, Bool.false_eq_true, if_false]
  have e1 : (b.lines.set b.cursor.line
        ((b.lines.getD b.cursor.line []).eraseIdx (b.cursor.col - 1))).getD b.cursor.line []
      = (b.lines.getD b.cursor.line []).eraseIdx (b.cursor.col - 1) :=
    getD_set_self _ _ _ _ (by simpa using hl)
  rw [e1]
  rw [List.set_set,
    insertIdx_eraseIdx_getD _ _ _
      (by omega : b.cursor.col - 1 < (b.lines.getD b.cursor.line []).length),
    set_getD_self _ _ _ hl]
  have e2 : b.cursor.col - 1 + 1 = b.cursor.col := by omega
  rw [e2]

lemma undo_remove_before_combine (b : Buffer) (h : WF b) (hcc : ¬ 0 < b.cursor.col)
    (hl0 : 0 < b.cursor.line) (R : List BufferOp) :
    Buffer.undo { b.remove_before with redos := R } =
      { b with redos :=
          (BufferOp.CombineLine
            ⟨b.cursor.line - 1, ((b.lines.eraseIdx b.cursor.line).getD (b.cursor.line - 1) []).length⟩
            LineCombination.FromStart) :: R } := by
  obtain ⟨hl, hc⟩ := h
  unfold Buffer.remove_before Buffer.op_remove_before Buffer.record_op Buffer.undo
    Buffer.op_newline
  rw [if_neg hcc, if_pos hl0]
  simp only [ne_eq, reduceCtorEq, not_false_eq_true, if_true, if_false]
  have elen : b.cursor.line - 1 < (b.lines.eraseIdx b.cursor.line).length := by
    rw [List.length_eraseIdx]; simp only [if_pos hl]; omega
  have e1 : ((b.lines.eraseIdx b.cursor.line).set (b.cursor.line - 1)
        ((b.lines.eraseIdx b.cursor.line).getD (b.cursor.line - 1) [] ++
          b.lines.getD b.cursor.line [])).getD (b.cursor.line - 1) []
      = (b.lines.eraseIdx b.cursor.line).getD (b.cursor.line - 1) [] ++
          b.lines.getD b.cursor.line [] :=
    getD_set_self _ _ _ _ (by simpa using elen)
  rw [e1]
  rw [List.take_left, List.drop_left]
  rw [List.set_set, set_getD_self _ _ _ elen]
  have e2 : b.cursor.line - 1 + 1 = b.cursor.line := by omega
  rw [e2]
  rw [insertIdx_eraseIdx_getD _ _ _ hl]
  have e3 : b.cursor.col = 0 := by omega
  have e4 : b.cursor = ⟨b.cursor.line, 0⟩ := by
    cases hcur : b.cursor with
    | mk l c => simp only [hcur] at e3 ⊢; rw [e3]
  rw [← e4]


lemma WF_insert_char (b : Buffer) (ch : Char) (h : WF b) : WF (b.insert_char ch) := by
  obtain ⟨hl, hc⟩ := h
  unfold Buffer.getLine at hc
  unfold WF Buffer.getLine Buffer.insert_char Buffer.op_insert_char Buffer.record_op
  simp only [ne_eq, reduceCtorEq, not_false_eq_true, if_true]
  refine ⟨by simpa using hl, ?_⟩
  rw [getD_set_self _ _ _ _ (by simpa using hl), List.length_insertIdx _ _ hc]
  omega

lemma WF_newline (b : Buffer) (h : WF b) : WF b.newline := by
  obtain ⟨hl, hc⟩ := h
  unfold Buffer.getLine at hc
  unfold WF Buffer.getLine Buffer.newline Buffer.op_newline Buffer.record_op
  simp only [ne_eq, reduceCtorEq, not_false_eq_true, if_true]
  have e0 : b.cursor.line + 1 ≤
      (b.lines.set b.cursor.line ((b.lines.getD b.cursor.line []).take b.cursor.col)).length := by
    simpa using hl
  refine ⟨?_, by omega⟩
  rw [List.length_insertIdx _ _ e0]
  simp only [List.length_set]
  omega

lemma WF_remove_at (b : Buffer) (h : WF b) : WF b.remove_at := by
  obtain ⟨hl, hc⟩ := h
  unfold Buffer.getLine at hc
  unfold WF Buffer.getLine Buffer.remove_at Buffer.op_remove_at Buffer.record_op
  by_cases hcc : b.cursor.col < (b.lines.getD b.cursor.line []).length
  · rw [if_pos hcc]
    simp only [ne_eq, reduceCtorEq, not_false_eq_true, if_true]
    refine ⟨by simpa using hl, ?_⟩
    rw [getD_set_self _ _ _ _ (by simpa using hl), List.length_eraseIdx]
    simp only [if_pos hcc]
    omega
  · rw [if_neg hcc]
    by_cases hline : b.cursor.line < b.lines.length - 1
    · rw [if_pos hline]
      simp only [ne_eq, reduceCtorEq, not_false_eq_true, if_true]
      have elen : b.cursor.line < (b.lines.eraseIdx (b.cursor.line + 1)).length := by
        rw [List.length_eraseIdx]
        simp only [if_pos (by omega : b.cursor.line + 1 < b.lines.length)]
        omega
      refine ⟨by simpa using elen, ?_⟩
      rw [getD_set_self _ _ _ _ (by simpa using elen), List.length_append]
      omega
    · rw [if_neg hline]
      simp only [ne_eq, not_true_eq_false, if_false, reduceCtorEq]
      exact ⟨hl, hc⟩

lemma WF_remove_before (b : Buffer) (h : WF b) : WF b.remove_before := by
  obtain ⟨hl, hc⟩ := h
  unfold Buffer.getLine at hc
  unfold WF Buffer.getLine Buffer.remove_before Buffer.op_remove_before Buffer.record_op
  by_cases hcc : 0 < b.cursor.col
  · rw [if_pos hcc]
    simp only [ne_eq, reduceCtorEq, not_false_eq_true, if_true]
    refine ⟨by simpa using hl, ?_⟩
    rw [getD_set_self _ _ _ _ (by simpa using hl), List.length_eraseIdx]
    simp only [if_pos (by omega : b.cursor.col - 1 < (b.lines.getD b.cursor.line []).length)]
    omega
  · rw [if_neg hcc]
    by_cases hl0 : 0 < b.cursor.line
    · rw [if_pos hl0]
      simp only [ne_eq, reduceCtorEq, not_false_eq_true, if_true]
      have elen : b.cursor.line - 1 < (b.lines.eraseIdx b.cursor.line).length := by
        rw [List.length_eraseIdx]; simp only [if_pos hl]; omega
      refine ⟨by simpa using elen, ?_⟩
      rw [getD_set_self _ _ _ _ (by simpa using elen), List.length_append]
      omega
    · rw [if_neg hl0]
      simp only [ne_eq, not_true_eq_false, if_false, reduceCtorEq]
      exact ⟨hl, hc⟩

lemma WF_applyEdit (e : Edit) (b : Buffer) (h : WF b) : WF (applyEdit e b) := by
  cases e with
  | insertChar ch => exact WF_insert_char b ch h
  | newline => exact WF_newline b h
  | removeAt => exact WF_remove_at b h
  | removeBefore => exact WF_remove_before b h

lemma undo_applyEdit (e : Edit) (b : Buffer) (h : WF b) (he : editOp e b ≠ BufferOp.NoOp)
    (R : List BufferOp) :
    Buffer.undo { applyEdit e b with redos := R } = { b with redos := editOp e b :: R } := by
  cases e with
  | insertChar ch =>
    simpa [applyEdit, editOp, Buffer.op_insert_char] using undo_insert_char b ch h R
  | newline =>
    simpa [applyEdit, editOp, Buffer.op_newline] using undo_newline b h R
  | removeAt =>
    by_cases hcc : b.cursor.col < b.getLine.length
    · have hgoal := undo_remove_at_char b h hcc R
      unfold Buffer.getLine at hcc
      unfold editOp Buffer.op_remove_at
      rw [if_pos hcc]
      simpa [applyEdit, Buffer.getLine] using hgoal
    · by_cases hline : b.cursor.line < b.lines.length - 1
      · have hgoal := undo_remove_at_combine b h hcc hline R
        unfold Buffer.getLine at hcc
        unfold editOp Buffer.op_remove_at
        rw [if_neg hcc, if_pos hline]
        simpa [applyEdit] using hgoal
      · exfalso
        apply he
        unfold Buffer.getLine at hcc
        unfold editOp Buffer.op_remove_at
        rw [if_neg hcc, if_neg hline]
  | removeBefore =>
    by_cases hcc : 0 < b.cursor.col
    · have hgoal := undo_remove_before_char b h hcc R
      unfold editOp Buffer.op_remove_before
      rw [if_pos hcc]
      simpa [applyEdit, Buffer.getLine] using hgoal
    · by_cases hl0 : 0 < b.cursor.line
      · have hgoal := undo_remove_before_combine b h hcc hl0 R
        unfold editOp Buffer.op_remove_before
        rw [if_neg hcc, if_pos hl0]
        simpa [applyEdit] using hgoal
      · exfalso
        apply he
        unfold editOp Buffer.op_remove_before
        rw [if_neg hcc, if_neg hl0]

lemma undoN_applyEdits : ∀ (es : List Edit) (b : Buffer) (R : List BufferOp),
    WF b → allEff es b = true →
    ∃ R2, undoN es.length { applyEdits es b with redos := R } = { b with redos := R2 } := by
  intro es
  induction es with
  | nil => exact fun b R _ _ => ⟨R, rfl⟩
  | cons e es ih =>
    intro b R hwf heff
    rw [allEff, Bool.and_eq_true] at heff
    have h1 : editOp e b ≠ BufferOp.NoOp := of_decide_eq_true heff.1
    obtain ⟨R2, hR⟩ := ih (applyEdit e b) R (WF_applyEdit e b hwf) heff.2
    refine ⟨editOp e b :: R2, ?_⟩
    show (undoN es.length { applyEdits es (applyEdit e b) with redos := R }).undo = _
    rw [hR]
    exact undo_applyEdit e b hwf h1 R2

lemma op_insert_char_stacks (b : Buffer) (ch : Char) :
    (b.op_insert_char ch).1.undos = b.undos ∧ (b.op_insert_char ch).1.redos = b.redos := by
  simp [Buffer.op_insert_char]

lemma op_newline_stacks (b : Buffer) :
    b.op_newline.1.undos = b.undos ∧ b.op_newline.1.redos = b.redos := by
  simp [Buffer.op_newline]

lemma op_remove_at_stacks (b : Buffer) :
    b.op_remove_at.1.undos = b.undos ∧ b.op_remove_at.1.redos = b.redos := by
  unfold Buffer.op_remove_at
  by_cases h1 : b.cursor.col < (b.lines.getD b.cursor.line []).length
  · rw [if_pos h1]; exact ⟨rfl, rfl⟩
  · rw [if_neg h1]
    by_cases h2 : b.cursor.line < b.lines.length - 1
    · rw [if_pos h2]; exact ⟨rfl, rfl⟩
    · rw [if_neg h2]; exact ⟨rfl, rfl⟩

lemma op_remove_before_stacks (b : Buffer) :
    b.op_remove_before.1.undos = b.undos ∧ b.op_remove_before.1.redos = b.redos := by
  unfold Buffer.op_remove_before
  by_cases h1 : 0 < b.cursor.col
  · rw [if_pos h1]; exact ⟨rfl, rfl⟩
  · rw [if_neg h1]
    by_cases h2 : 0 < b.cursor.line
    · rw [if_pos h2]; exact ⟨rfl, rfl⟩
    · rw [if_neg h2]; exact ⟨rfl, rfl⟩
lemma NoNoOp_record_op (b : Buffer) (op : BufferOp) (h : NoNoOp b) : NoNoOp (b.record_op op) := by
  unfold Buffer.record_op
  split
  · next hop =>
    exact ⟨by simp [List.mem_cons]; exact ⟨fun he => hop he.symm, h.1⟩, by simp⟩
  · exact h

lemma undo_stack_shape (nm : String) (ls : List (List Char)) (cur0 : Cursor)
    (op : BufferOp) (rest rs : List BufferOp) :
    (Buffer.undo ⟨nm, ls, cur0, op :: rest, rs⟩).undos = rest ∧
    (Buffer.undo ⟨nm, ls, cur0, op :: rest, rs⟩).redos = op :: rs := by
  cases op with
  | InsertChar cur ch =>
    have h := op_remove_at_stacks ⟨nm, ls, cur, rest, rs⟩
    refine ⟨h.1, ?_⟩
    show BufferOp.InsertChar cur ch :: (Buffer.op_remove_at ⟨nm, ls, cur, rest, rs⟩).1.redos
        = BufferOp.InsertChar cur ch :: rs
    rw [h.2]
  | RemoveChar cur ch at_ =>
    have h := op_insert_char_stacks ⟨nm, ls, cur, rest, rs⟩ ch
    cases at_ with
    | true =>
      refine ⟨h.1, ?_⟩
      show BufferOp.RemoveChar cur ch true :: (Buffer.op_insert_char ⟨nm, ls, cur, rest, rs⟩ ch).1.redos
          = BufferOp.RemoveChar cur ch true :: rs
      rw [h.2]
    | false =>
      refine ⟨h.1, ?_⟩
      show BufferOp.RemoveChar cur ch false :: (Buffer.op_insert_char ⟨nm, ls, cur, rest, rs⟩ ch).1.redos
          = BufferOp.RemoveChar cur ch false :: rs
      rw [h.2]
  | SplitLine cur =>
    have h := op_remove_at_stacks ⟨nm, ls, cur, rest, rs⟩
    refine ⟨h.1, ?_⟩
    show BufferOp.SplitLine cur :: (Buffer.op_remove_at ⟨nm, ls, cur, rest, rs⟩).1.redos
        = BufferOp.SplitLine cur :: rs
    rw [h.2]
  | CombineLine cur from_ =>
    have h := op_newline_stacks ⟨nm, ls, cur, rest, rs⟩
    cases from_ with
    | FromStart =>
      refine ⟨h.1, ?_⟩
      show BufferOp.CombineLine cur LineCombination.FromStart
            :: (Buffer.op_newline ⟨nm, ls, cur, rest, rs⟩).1.redos
          = BufferOp.CombineLine cur LineCombination.FromStart :: rs
      rw [h.2]
    | FromEnd =>
      refine ⟨h.1, ?_⟩
      show BufferOp.CombineLine cur LineCombination.FromEnd
            :: (Buffer.op_newline ⟨nm, ls, cur, rest, rs⟩).1.redos
          = BufferOp.CombineLine cur LineCombination.FromEnd :: rs
      rw [h.2]
  | NoOp => exact ⟨rfl, rfl⟩

lemma redo_stack_shape (nm : String) (ls : List (List Char)) (cur0 : Cursor)
    (op : BufferOp) (rest us : List BufferOp) :
    (Buffer.redo ⟨nm, ls, cur0, us, op :: rest⟩).redos = rest ∧
    (Buffer.redo ⟨nm, ls, cur0, us, op :: rest⟩).undos = op :: us := by
  cases op with
  | InsertChar cur ch =>
    have h := op_insert_char_stacks ⟨nm, ls, cur, us, rest⟩ ch
    refine ⟨h.2, ?_⟩
    show BufferOp.InsertChar cur ch :: (Buffer.op_insert_char ⟨nm, ls, cur, us, rest⟩ ch).1.undos
        = BufferOp.InsertChar cur ch :: us
    rw [h.1]
  | RemoveChar cur ch at_ =>
    cases at_ with
    | true =>
      have h := op_remove_at_stacks ⟨nm, ls, cur, us, rest⟩
      refine ⟨h.2, ?_⟩
      show BufferOp.RemoveChar cur ch true :: (Buffer.op_remove_at ⟨nm, ls, cur, us, rest⟩).1.undos
          = BufferOp.RemoveChar cur ch true :: us
      rw [h.1]
    | false =>
      have h := op_remove_before_stacks ⟨nm, ls, cur, us, rest⟩
      refine ⟨h.2, ?_⟩
      show BufferOp.RemoveChar cur ch false
            :: (Buffer.op_remove_before ⟨nm, ls, cur, us, rest⟩).1.undos
          = BufferOp.RemoveChar cur ch false :: us
      rw [h.1]
  | SplitLine cur =>
    have h := op_newline_stacks ⟨nm, ls, cur, us, rest⟩
    refine ⟨h.2, ?_⟩
    show BufferOp.SplitLine cur :: (Buffer.op_newline ⟨nm, ls, cur, us, rest⟩).1.undos
        = BufferOp.SplitLine cur :: us
    rw [h.1]
  | CombineLine cur from_ =>
    cases from_ with
    | FromStart =>
      have h := op_remove_before_stacks ⟨nm, ls, cur, us, rest⟩
      refine ⟨h.2, ?_⟩
      show BufferOp.CombineLine cur LineCombination.FromStart
            :: (Buffer.op_remove_before ⟨nm, ls, cur, us, rest⟩).1.undos
          = BufferOp.CombineLine cur LineCombination.FromStart :: us
      rw [h.1]
    | FromEnd =>
      have h := op_remove_at_stacks ⟨nm, ls, cur, us, rest⟩
      refine ⟨h.2, ?_⟩
      show BufferOp.CombineLine cur LineCombination.FromEnd
            :: (Buffer.op_remove_at ⟨nm, ls, cur, us, rest⟩).1.undos
          = BufferOp.CombineLine cur LineCombination.FromEnd :: us
      rw [h.1]
  | NoOp => exact ⟨rfl, rfl⟩

lemma undo_nil (b : Buffer) (h : b.undos = []) : b.undo = b := by
  cases b with
  | mk nm ls c us rs =>
    cases us with
    | nil => rfl
    | cons op rest => exact absurd h (by simp)

lemma redo_nil (b : Buffer) (h : b.redos = []) : b.redo = b := by
  cases b with
  | mk nm ls c us rs =>
    cases rs with
    | nil => rfl
    | cons op rest => exact absurd h (by simp)

lemma NoNoOp_undo (b : Buffer) (h : NoNoOp b) : NoNoOp b.undo := by
  cases b with
  | mk nm ls c us rs =>
    cases us with
    | nil => exact h
    | cons op rest =>
      obtain ⟨h1, h2⟩ := h
      have hs := undo_stack_shape nm ls c op rest rs
      refine ⟨?_, ?_⟩
      · rw [hs.1]; exact fun hm => h1 (List.mem_cons_of_mem _ hm)
      · rw [hs.2]
        intro hm
        rcases List.mem_cons.mp hm with he | hm2
        · exact h1 (he ▸ List.mem_cons_self _ _)
        · exact h2 hm2

lemma NoNoOp_redo (b : Buffer) (h : NoNoOp b) : NoNoOp b.redo := by
  cases b with
  | mk nm ls c us rs =>
    cases rs with
    | nil => exact h
    | cons op rest =>
      obtain ⟨h1, h2⟩ := h
      have hs := redo_stack_shape nm ls c op rest us
      refine ⟨?_, ?_⟩
      · rw [hs.2]
        intro hm
        rcases List.mem_cons.mp hm with he | hm2
        · exact h2 (he ▸ List.mem_cons_self _ _)
        · exact h1 hm2
      · rw [hs.1]; exact fun hm => h2 (List.mem_cons_of_mem _ hm)

lemma NoNoOp_step (a : Action) (b : Buffer) (h : NoNoOp b) : NoNoOp (step a b) := by
  cases a with
  | insertChar ch =>
    have hs := op_insert_char_stacks b ch
    exact NoNoOp_record_op _ _ ⟨hs.1 ▸ h.1, hs.2 ▸ h.2⟩
  | newline =>
    have hs := op_newline_stacks b
    exact NoNoOp_record_op _ _ ⟨hs.1 ▸ h.1, hs.2 ▸ h.2⟩
  | removeAt =>
    have hs := op_remove_at_stacks b
    exact NoNoOp_record_op _ _ ⟨hs.1 ▸ h.1, hs.2 ▸ h.2⟩
  | removeBefore =>
    have hs := op_remove_before_stacks b
    exact NoNoOp_record_op _ _ ⟨hs.1 ▸ h.1, hs.2 ▸ h.2⟩
  | undo => exact NoNoOp_undo b h
  | redo => exact NoNoOp_redo b h
  | moveUp d =>
    show NoNoOp (b.move_cursor_up d)
    unfold Buffer.move_cursor_up
    split <;> exact h
  | moveDown d => exact h
  | moveLeft d =>
    show NoNoOp (b.move_cursor_left d)
    unfold Buffer.move_cursor_left
    split <;> exact h
  | moveRight d => exact h
  | home => exact h
  | endOfLine => exact h
  | goToLine n =>
    show NoNoOp (b.go_to_line n).1
    unfold Buffer.go_to_line
    split <;> exact h

lemma NoNoOp_steps (acts : List Action) : ∀ (b : Buffer), NoNoOp b → NoNoOp (steps acts b) := by
  induction acts with
  | nil => exact fun b h => h
  | cons a as_ ih => exact fun b h => ih (step a b) (NoNoOp_step a b h)

lemma record_op_redos (b : Buffer) (op : BufferOp) (h : op ≠ BufferOp.NoOp) :
    (b.record_op op).redos = [] := by
  unfold Buffer.record_op
  rw [if_pos h]

lemma applyEdit_redos (e : Edit) (b : Buffer) (he : editOp e b ≠ BufferOp.NoOp) :
    (applyEdit e b).redos = [] := by
  cases e with
  | insertChar ch => exact record_op_redos _ _ he
  | newline => exact record_op_redos _ _ he
  | removeAt => exact record_op_redos _ _ he
  | removeBefore => exact record_op_redos _ _ he

/-- Claim C1: the claim asserts the dialog confirm handler returns to Editing
whatever the modal content is.  The code instead unwraps the integer parse,
so a non-integer content panics; the embedding returns none for the panic.
Evaluating the handler at the non-integer content x shows the abort, for
every buffer. -/
theorem confirm_non_integer_panics (buf : Buffer) : confirm_go_to_line buf ['x'] = none := rfl

/-- Claim C2, counterexample: the claim says go_to_line(n) succeeds iff
1 <= n <= len(lines).  On the one-line empty buffer, n = 1 is in that range
yet the call fails, because the code tests n < len(lines), not n <= len(lines). -/
theorem go_to_line_claim_cex :
    1 ≤ Buffer.empty.lines.length ∧ (Buffer.empty.go_to_line 1).2.isSome = true := by decide

/-- Claim C2, amended: go_to_line(n) succeeds iff 1 <= n <= len(lines) - 1
(that is, 0 < n < len(lines)); on success only cursor.line changes, to n - 1;
otherwise the buffer is unchanged and the error message carries n. -/
theorem go_to_line_spec (b : Buffer) (n : Nat) :
    ((b.go_to_line n).2 = none ↔ 0 < n ∧ n < b.lines.length) ∧
    (0 < n → n < b.lines.length →
      b.go_to_line n = ({ b with cursor := { b.cursor with line := n - 1 } }, none)) ∧
    (¬ (0 < n ∧ n < b.lines.length) →
      b.go_to_line n = (b, some ("Error: Line " ++ toString n ++ " is out of bound"))) := by
  unfold Buffer.go_to_line
  by_cases h : n < b.lines.length ∧ 0 < n
  · rw [if_pos h]
    refine ⟨by simp [h.1, h.2], fun _ _ => rfl, fun hc => absurd ⟨h.2, h.1⟩ hc⟩
  · rw [if_neg h]
    refine ⟨by simp; omega, fun h1 h2 => absurd ⟨h2, h1⟩ h, fun _ => rfl⟩

/-- Witness for the amended C2: a successful jump on a two-line buffer and a
failing jump on the empty buffer. -/
theorem go_to_line_spec_witness :
    (Buffer.new "f" [['a'], ['b']]).go_to_line 1
      = ({ Buffer.new "f" [['a'], ['b']] with
            cursor := { (Buffer.new "f" [['a'], ['b']]).cursor with line := 1 - 1 } }, none) ∧
    Buffer.empty.go_to_line 5
      = (Buffer.empty, some ("Error: Line " ++ toString 5 ++ " is out of bound")) :=
  ⟨(go_to_line_spec (Buffer.new "f" [['a'], ['b']]) 1).2.1 (by decide) (by decide),
   (go_to_line_spec Buffer.empty 5).2.2 (by decide)⟩

/-- Claim C3, counterexample: from the buffer holding a (whose undo stack
still records the insertion), the one-element sequence remove_at is a no-op
that records nothing, so one undo pops the older insertion instead and the
pre-sequence lines and cursor are not restored. -/
theorem undo_sequence_claim_cex :
    ¬ ((undoN 1 (applyEdits [Edit.removeAt] (Buffer.empty.insert_char 'a'))).lines
         = (Buffer.empty.insert_char 'a').lines ∧
       (undoN 1 (applyEdits [Edit.removeAt] (Buffer.empty.insert_char 'a'))).cursor
         = (Buffer.empty.insert_char 'a').cursor) := by decide

/-- Claim C3, amended: for every well-formed buffer state and every sequence
of k editing operations of which each is effective (records an operation,
that is, is not a no-op at its point in the sequence), performing the
sequence and then calling undo k times restores lines and cursor exactly. -/
theorem undo_restores_effective_sequence (es : List Edit) (b : Buffer)
    (hwf : WF b) (heff : allEff es b = true) :
    (undoN es.length (applyEdits es b)).lines = b.lines ∧
    (undoN es.length (applyEdits es b)).cursor = b.cursor := by
  obtain ⟨R2, hR⟩ := undoN_applyEdits es b (applyEdits es b).redos hwf heff
  have heta : { applyEdits es b with redos := (applyEdits es b).redos } = applyEdits es b := rfl
  rw [heta] at hR
  rw [hR]
  exact ⟨rfl, rfl⟩

/-- Witness for the amended C3: type a, split the line, backspace over the
split; three undos restore the empty buffer's lines and cursor. -/
theorem undo_restores_effective_sequence_witness :
    (undoN [Edit.insertChar 'a', Edit.newline, Edit.removeBefore].length
        (applyEdits [Edit.insertChar 'a', Edit.newline, Edit.removeBefore] Buffer.empty)).lines
      = Buffer.empty.lines ∧
    (undoN [Edit.insertChar 'a', Edit.newline, Edit.removeBefore].length
        (applyEdits [Edit.insertChar 'a', Edit.newline, Edit.removeBefore] Buffer.empty)).cursor
      = Buffer.empty.cursor :=
  undo_restores_effective_sequence [Edit.insertChar 'a', Edit.newline, Edit.removeBefore]
    Buffer.empty (by decide) (by decide)

/-- Claim C4: the claim asserts op, undo, redo returns to the post-op state.
For remove_before on the buffer ab at column 2 the post-op state is lines a,
cursor (0,1), but redo replays the backspace from the recorded post-decrement
cursor, deleting the wrong character: the state after undo and redo is lines
b, cursor (0,0).  The code diverges from the claim. -/
theorem redo_after_undo_remove_before_diverges :
    demo_ab.remove_before.lines = [['a']] ∧ demo_ab.remove_before.cursor = ⟨0, 1⟩ ∧
    demo_ab.remove_before.undo.redo.lines = [['b']] ∧
    demo_ab.remove_before.undo.redo.cursor = ⟨0, 0⟩ := by decide

/-- Claim C5: the claim asserts every construction establishes a nonempty
lines sequence.  Buffer::new collects exactly the lines the source yields,
so a source with zero lines produces a buffer with zero lines, violating
the invariant. -/
theorem new_empty_source_has_zero_lines :
    (Buffer.new "[draft]" []).lines.length = 0 := rfl

/-- Claim C6: the claim asserts Modal remove_at is a no-op at end of line.
The code calls String::remove unconditionally, which panics there (none in
the embedding); the freshly constructed go-to-line modal (empty line,
column 0) is already such a state. -/
theorem modal_remove_at_end_of_line_panics :
    (Modal.new "Go to line").remove_at = none := rfl

/-- Claim C7, counterexample: after the five single-character operations,
three undos do not yield a single empty line with cursor (0,0); they only
undo d, c and the newline, leaving lines ab with cursor (0,2). -/
theorem scenario_three_undos_cex :
    ¬ ((undoN 3 demo_abcd).lines = [[]] ∧ (undoN 3 demo_abcd).cursor = ⟨0, 0⟩) := by decide

/-- Claim C7, amended: the sequence a, b, newline, c, d yields lines ab, cd
with cursor (1,2); three undos yield lines ab with cursor (0,2); five undos
restore the single empty line and cursor (0,0). -/
theorem scenario_edit_undo :
    demo_abcd.lines = [['a', 'b'], ['c', 'd']] ∧ demo_abcd.cursor = ⟨1, 2⟩ ∧
    (undoN 3 demo_abcd).lines = [['a', 'b']] ∧ (undoN 3 demo_abcd).cursor = ⟨0, 2⟩ ∧
    (undoN 5 demo_abcd).lines = [[]] ∧ (undoN 5 demo_abcd).cursor = ⟨0, 0⟩ := by decide

/-- Claim C8: from any construction (empty stacks) every sequence of input
commands keeps NoOp out of both history stacks, and any edit that records a
non-NoOp operation leaves an empty redo stack, so an immediately following
redo is a no-op. -/
theorem history_stacks_invariant :
    (∀ (b0 : Buffer) (acts : List Action), NoNoOp b0 → NoNoOp (steps acts b0)) ∧
    NoNoOp Buffer.empty ∧
    (∀ (nm : String) (ls : List (List Char)), NoNoOp (Buffer.new nm ls)) ∧
    (∀ (b : Buffer) (e : Edit), editOp e b ≠ BufferOp.NoOp →
      (applyEdit e b).redos = [] ∧ (applyEdit e b).redo = applyEdit e b) := by
  refine ⟨fun b0 acts h => NoNoOp_steps acts b0 h,
    ⟨by simp [NoNoOp, Buffer.empty], by simp [NoNoOp, Buffer.empty]⟩,
    fun nm ls => ⟨by simp [NoNoOp, Buffer.new], by simp [NoNoOp, Buffer.new]⟩,
    fun b e he => ?_⟩
  have hr := applyEdit_redos e b he
  exact ⟨hr, redo_nil _ hr⟩

/-- Witness for C8 at a concrete command list and a concrete edit. -/
theorem history_stacks_invariant_witness :
    NoNoOp (steps [Action.insertChar 'a', Action.undo, Action.removeAt, Action.redo] Buffer.empty) ∧
    (applyEdit (Edit.insertChar 'b') Buffer.empty).redos = [] :=
  ⟨history_stacks_invariant.1 Buffer.empty
      [Action.insertChar 'a', Action.undo, Action.removeAt, Action.redo] (by decide),
   (history_stacks_invariant.2.2.2 Buffer.empty (Edit.insertChar 'b') (by decide)).1⟩

/-- Claim C9: remove_at at the end of the last line and remove_before at
(0,0) return the buffer unchanged, stacks included: nothing is pushed. -/
theorem boundary_removes_are_noops (b : Buffer) :
    (b.cursor.line = b.lines.length - 1 → b.cursor.col = b.getLine.length → b.remove_at = b) ∧
    (b.cursor.line = 0 → b.cursor.col = 0 → b.remove_before = b) := by
  constructor
  · intro h1 h2
    unfold Buffer.remove_at Buffer.op_remove_at Buffer.record_op
    unfold Buffer.getLine at h2
    have hc1 : ¬ (b.cursor.col < (b.lines.getD b.cursor.line []).length) := by omega
    have hc2 : ¬ (b.cursor.line < b.lines.length - 1) := by omega
    rw [if_neg hc1, if_neg hc2]
    simp
  · intro h1 h2
    unfold Buffer.remove_before Buffer.op_remove_before Buffer.record_op
    have hc1 : ¬ (0 < b.cursor.col) := by omega
    have hc2 : ¬ (0 < b.cursor.line) := by omega
    rw [if_neg hc1, if_neg hc2]
    simp

/-- Witness for C9: the scenario buffer sits at the end of its last line,
and the empty buffer sits at (0,0). -/
theorem boundary_removes_are_noops_witness :
    demo_abcd.remove_at = demo_abcd ∧ Buffer.empty.remove_before = Buffer.empty :=
  ⟨(boundary_removes_are_noops demo_abcd).1 (by decide) (by decide),
   (boundary_removes_are_noops Buffer.empty).2 (by decide) (by decide)⟩

/-- Claim C10: undo with an empty undo stack and redo with an empty redo
stack leave the whole buffer unchanged and cannot fail. -/
theorem undo_redo_empty_stack_noop (b : Buffer) :
    (b.undos = [] → b.undo = b) ∧ (b.redos = [] → b.redo = b) :=
  ⟨undo_nil b, redo_nil b⟩

/-- Witness for C10 on the empty buffer. -/
theorem undo_redo_empty_stack_noop_witness :
    Buffer.empty.undo = Buffer.empty ∧ Buffer.empty.redo = Buffer.empty :=
  ⟨(undo_redo_empty_stack_noop Buffer.empty).1 rfl,
   (undo_redo_empty_stack_noop Buffer.empty).2 rfl⟩

end Sonar
